import Mathlib

/-!
Verification of the koax middleware runtime core against its design
specification.  The definitions below are shallow embeddings of the
TypeScript sources:

* `Ctx`, `ContextPool.acquire`, `ContextPool.release`, `ContextPool.getStats`
  embed `src/context.ts` (classes `Context` and `ContextPool`).  Context
  objects are mutable in the source, so the embedding carries an explicit
  heap (`PoolState.heap`), with a context's heap index playing the role of
  its object identity.  The free-list is a JS array used as a stack via
  `push`/`pop` at the same end; it is modelled as a list with the stack top
  at the head.
* `KoaXRequest.fresh` / `KoaXRequest.stale` embed `src/request.ts`.
* `routesLoop` / `routesMw` embed the middleware returned by
  `Router.routes()` in `src/router.ts`.
* `runBody` / `dispatch` model the middleware dispatcher, which is described
  by the specification (section 4.2) but whose source file is not among the
  given sources; it is modelled from the spec.
-/

namespace KoaX

/-! ## Context and ContextPool (src/context.ts) -/

/-- One `Context` object, as the fields relevant to the pool lifecycle:
the bound request/response pair (modelled as opaque handles), the `state`
key/value map, the `_inUse` flag, and the logging-related `requestId` and
`startTime` fields.  The request/response facades' internal parse caches are
not needed by any pool-level claim. -/
structure Ctx where
  reqH : Nat := 0
  resH : Nat := 0
  state : List (String × String) := []
  inUse : Bool := false
  requestId : String := ""
  startTime : Nat := 0
  deriving Repr, DecidableEq

/-- Modelled from the spec: `generateRequestId` is imported from
`src/logger.ts`, which is not among the given sources.  The spec requires
"a request identifier (unique per acquisition, opaque string)", modelled as
an injective function of a per-pool generation counter. -/
def generateRequestId (n : Nat) : String :=
  String.mk (List.replicate (n + 1) 'r')

/-- The mutable world of one `ContextPool`: the heap of every `Context`
constructed so far (a context's identity is its heap index), the free-list
(`pool`, stack top at the head), the bound `maxSize`, the cumulative
`created` counter, the owning application's `logger.enabled` flag, the
counter behind `generateRequestId`, and the value `Date.now()` would
currently return. -/
structure PoolState where
  heap : List Ctx := []
  pool : List Nat := []
  maxSize : Nat := 1000
  created : Nat := 0
  loggerEnabled : Bool := true
  nextRid : Nat := 0
  clock : Nat := 0
  deriving Repr, DecidableEq

/-- Embeds `Context.reset` (src/context.ts): rebind the request/response pair,
replace the state map with a fresh empty one, and set `requestId` and
`startTime` — from `generateRequestId()`/`Date.now()` when the owning
application's logger is enabled, and to `''`/`0` otherwise. -/
def Ctx.reset (c : Ctx) (req res : Nat) (loggerEnabled : Bool)
    (rid : String) (now : Nat) : Ctx :=
  { c with
    reqH := req
    resH := res
    state := []
    requestId := if loggerEnabled then rid else ""
    startTime := if loggerEnabled then now else 0 }

/-- Embeds `ContextPool.acquire` (src/context.ts): pop a context from the free-list
and `reset` it, or construct a new one (which itself runs `reset`, and bumps
`created`); mark the result in-use.  Returns the heap index of the handed-out
context together with the updated pool world. -/
def ContextPool.acquire (s : PoolState) (req res : Nat) : Nat × PoolState :=
  match s.pool with
  | [] =>
      let c := { Ctx.reset {} req res s.loggerEnabled
                   (generateRequestId s.nextRid) s.clock with inUse := true }
      (s.heap.length,
        { s with
          heap := s.heap ++ [c]
          created := s.created + 1
          nextRid := if s.loggerEnabled then s.nextRid + 1 else s.nextRid })
  | i :: rest =>
      let c := { Ctx.reset (s.heap.getD i {}) req res s.loggerEnabled
                   (generateRequestId s.nextRid) s.clock with inUse := true }
      (i,
        { s with
          heap := s.heap.set i c
          pool := rest
          nextRid := if s.loggerEnabled then s.nextRid + 1 else s.nextRid })

/-- Embeds `ContextPool.release` (src/context.ts): no-op unless the context is
in-use; otherwise clear `_inUse`, and — only when the free-list is below
`maxSize` — clear the state map and push the context onto the free-list. -/
def ContextPool.release (s : PoolState) (i : Nat) : PoolState :=
  if !(s.heap.getD i {}).inUse then s
  else
    if s.pool.length < s.maxSize then
      { s with
        heap := s.heap.set i { s.heap.getD i {} with inUse := false, state := [] }
        pool := i :: s.pool }
    else
      { s with heap := s.heap.set i { s.heap.getD i {} with inUse := false } }

/-- Embeds `ContextPool.getStats` (src/context.ts): `(poolSize, created, maxSize)`. -/
def ContextPool.getStats (s : PoolState) : Nat × Nat × Nat :=
  (s.pool.length, s.created, s.maxSize)

/-- A single pool operation: an acquisition (for some request/response pair)
or a release of a context identity. -/
inductive PoolOp where
  | acq (req res : Nat)
  | rel (i : Nat)
  deriving Repr, DecidableEq

/-- Apply one pool operation to the pool world. -/
def PoolState.step (s : PoolState) : PoolOp → PoolState
  | .acq req res => (ContextPool.acquire s req res).2
  | .rel i => ContextPool.release s i

/-- Apply a sequence of pool operations. -/
def PoolState.runOps (s : PoolState) (ops : List PoolOp) : PoolState :=
  ops.foldl PoolState.step s

/-- A freshly constructed `ContextPool` with the given `maxSize`, owned by an
application whose logger-enabled flag is `le`. -/
def initPool (maxSize : Nat) (le : Bool) : PoolState :=
  { maxSize := maxSize, loggerEnabled := le }

/-- Release a list of contexts sequentially (left to right). -/
def ContextPool.releaseAll (s : PoolState) (rs : List Nat) : PoolState :=
  rs.foldl ContextPool.release s

/-- Perform `n` sequential acquisitions, collecting the handed-out context
identities in order. -/
def ContextPool.acquireN : PoolState → Nat → Nat → Nat → List Nat × PoolState
  | s, 0, _, _ => ([], s)
  | s, n + 1, req, res =>
      let p := ContextPool.acquire s req res
      let q := ContextPool.acquireN p.2 n req res
      (p.1 :: q.1, q.2)

/-! ### Basic heap lemmas -/

lemma getD_append_length (l : List α) (a d : α) :
    (l ++ [a]).getD l.length d = a := by
  induction l with
  | nil => rfl
  | cons x xs ih =>
      simp only [List.cons_append, List.length_cons, List.getD_cons_succ]
      exact ih

lemma getD_set_self (l : List α) (i : Nat) (a d : α) (h : i < l.length) :
    (l.set i a).getD i d = a := by
  induction l generalizing i with
  | nil => simp at h
  | cons x xs ih =>
      cases i with
      | zero => rfl
      | succ j =>
          simp only [List.set]
          simpa [List.getD] using ih j (by simpa using h)

lemma getD_set_ne (l : List α) (i j : Nat) (a d : α) (h : i ≠ j) :
    (l.set i a).getD j d = l.getD j d := by
  induction l generalizing i j with
  | nil => simp
  | cons x xs ih =>
      cases i with
      | zero =>
          cases j with
          | zero => exact absurd rfl h
          | succ k => rfl
      | succ i2 =>
          cases j with
          | zero => rfl
          | succ k =>
              simp only [List.set]
              simpa [List.getD] using ih i2 k (by omega)

/-! ### Pool invariant (C5) -/

lemma step_maxSize (s : PoolState) (op : PoolOp) :
    (s.step op).maxSize = s.maxSize := by
  cases op with
  | acq req res =>
      simp only [PoolState.step, ContextPool.acquire]
      cases s.pool <;> rfl
  | rel i =>
      simp only [PoolState.step, ContextPool.release]
      split
      · rfl
      · split <;> rfl

lemma step_pool_le (s : PoolState) (op : PoolOp)
    (h : s.pool.length ≤ s.maxSize) :
    (s.step op).pool.length ≤ s.maxSize := by
  cases op with
  | acq req res =>
      simp only [PoolState.step, ContextPool.acquire]
      cases hp : s.pool with
      | nil => simp
      | cons i rest =>
          have : s.pool.length = rest.length + 1 := by rw [hp]; rfl
          simp
          omega
  | rel i =>
      simp only [PoolState.step, ContextPool.release]
      split
      · exact h
      · split
        · next hlt => simpa using hlt
        · exact h

lemma runOps_pool_le (s : PoolState) (ops : List PoolOp)
    (h : s.pool.length ≤ s.maxSize) :
    (s.runOps ops).pool.length ≤ (s.runOps ops).maxSize := by
  induction ops generalizing s with
  | nil => exact h
  | cons op rest ih =>
      have h1 := step_pool_le s op h
      have h2 := step_maxSize s op
      simpa [PoolState.runOps] using ih (s.step op) (h2 ▸ h1)

lemma runOps_maxSize (s : PoolState) (ops : List PoolOp) :
    (s.runOps ops).maxSize = s.maxSize := by
  induction ops generalizing s with
  | nil => rfl
  | cons op rest ih =>
      have h := step_maxSize s op
      have h2 := ih (s.step op)
      simp only [PoolState.runOps, List.foldl_cons] at h2 ⊢
      exact h2.trans h

/-- C5: the free-list never exceeds `maxSize`: every sequence of `acquire`
and `release` operations, run from a freshly constructed pool, yields a state
whose free-list length is at most `maxSize`; in particular releasing more
than `maxSize` contexts with none re-acquired never grows the free-list
beyond `maxSize`. -/
theorem koaxC5_pool_bound (maxSize : Nat) (le : Bool) (ops : List PoolOp) :
    ((initPool maxSize le).runOps ops).pool.length ≤ maxSize := by
  have h := runOps_pool_le (initPool maxSize le) ops (by simp [initPool])
  have hm := runOps_maxSize (initPool maxSize le) ops
  rw [hm] at h
  exact h

/-! ### State isolation on acquisition (C6) -/

/-- C6: state isolation across reuse: whatever the pool's history — in
particular after any value was written into a context's `state` during an
earlier request, the context released, and any interleaving of other pool
operations — the context handed out by `acquire` always carries an empty
state map, so no key from a previous request is observable. -/
theorem koaxC6_state_isolation (s : PoolState) (req res : Nat) :
    ((ContextPool.acquire s req res).2.heap.getD
       (ContextPool.acquire s req res).1 {}).state = [] := by
  cases hp : s.pool with
  | nil =>
      simp only [ContextPool.acquire, hp]
      rw [getD_append_length]
      simp [Ctx.reset]
  | cons i rest =>
      simp only [ContextPool.acquire, hp]
      by_cases hi : i < s.heap.length
      · rw [getD_set_self _ _ _ _ hi]
        simp [Ctx.reset]
      · rw [List.set_eq_of_length_le (by omega)]
        rw [List.getD_eq_default _ _ (by omega)]

/-! ### Release semantics (C4) -/

lemma release_noop (s : PoolState) (i : Nat)
    (h1 : (s.heap.getD i {}).inUse = false) :
    ContextPool.release s i = s := by
  simp only [ContextPool.release]
  rw [h1]
  simp

lemma release_push (s : PoolState) (i : Nat)
    (h1 : (s.heap.getD i {}).inUse = true)
    (h2 : s.pool.length < s.maxSize) :
    ContextPool.release s i =
      { s with
        heap := s.heap.set i { s.heap.getD i {} with inUse := false, state := [] }
        pool := i :: s.pool } := by
  simp only [ContextPool.release]
  rw [h1]
  simp [h2]

lemma release_drop (s : PoolState) (i : Nat)
    (h1 : (s.heap.getD i {}).inUse = true)
    (h2 : ¬ s.pool.length < s.maxSize) :
    ContextPool.release s i =
      { s with heap := s.heap.set i { s.heap.getD i {} with inUse := false } } := by
  simp only [ContextPool.release]
  rw [h1]
  simp [h2]

/-- C4 (amended): `release` is a no-op when the context is not in-use;
for an in-use context it clears the in-use flag and, exactly when the
free-list is below `maxSize`, clears the state map and pushes the context
onto the free-list; at capacity the context is discarded — not retained —
with its state map left untouched. -/
theorem koaxC4_release_semantics (s : PoolState) (i : Nat) (c : Ctx)
    (hc : s.heap.getD i {} = c) :
    (c.inUse = false → ContextPool.release s i = s) ∧
    (c.inUse = true → s.pool.length < s.maxSize →
      ContextPool.release s i =
        { s with
          heap := s.heap.set i { c with inUse := false, state := [] }
          pool := i :: s.pool }) ∧
    (c.inUse = true → ¬ s.pool.length < s.maxSize →
      ContextPool.release s i =
        { s with heap := s.heap.set i { c with inUse := false } }) := by
  subst hc
  exact ⟨release_noop s i, release_push s i, release_drop s i⟩

/-- Witness scenario for C4: a one-context heap where the context is in-use
and has a non-empty state map, with room in the free-list. -/
def c4State : PoolState :=
  { heap := [{ reqH := 1, resH := 1, state := [("k", "v")], inUse := true }]
    pool := []
    maxSize := 2
    created := 1
    loggerEnabled := false }

/-- Witness for C4: at the concrete `c4State`, releasing the in-use context
clears its state map and pushes it onto the free-list. -/
theorem koaxC4_release_semantics_witness :
    ContextPool.release c4State 0 =
      { c4State with
        heap := [{ reqH := 1, resH := 1, state := [], inUse := false }]
        pool := [0] } := by
  have h := (koaxC4_release_semantics c4State 0
    { reqH := 1, resH := 1, state := [("k", "v")], inUse := true }
    (by decide)).2.1 (by decide) (by decide)
  rw [h]
  decide

/-- Counterexample scenario for C4 as stated: a zero-capacity pool holding
one in-use context with a non-empty state map. -/
def c4FullState : PoolState :=
  { heap := [{ reqH := 1, resH := 1, state := [("k", "v")], inUse := true }]
    pool := []
    maxSize := 0
    created := 1
    loggerEnabled := false }

/-- C4 counterexample: the claim says an in-use context always has its state
map cleared on release; but when the free-list is at capacity (here
`maxSize = 0`) the code clears only the in-use flag and leaves the state map
untouched on the discarded context. -/
theorem koaxC4_counterexample :
    (c4FullState.heap.getD 0 {}).inUse = true ∧
    ((ContextPool.release c4FullState 0).heap.getD 0 {}).inUse = false ∧
    ((ContextPool.release c4FullState 0).heap.getD 0 {}).state = [("k", "v")] ∧
    [("k", "v")] ≠ ([] : List (String × String)) := by
  decide

/-! ### Pool reuse window (C3) -/

lemma releaseAll_spec (s : PoolState) (rs : List Nat)
    (hnd : rs.Nodup)
    (hin : ∀ r ∈ rs, (s.heap.getD r {}).inUse = true)
    (hroom : s.pool.length + rs.length ≤ s.maxSize) :
    (ContextPool.releaseAll s rs).pool = rs.reverse ++ s.pool ∧
    (ContextPool.releaseAll s rs).created = s.created ∧
    (ContextPool.releaseAll s rs).maxSize = s.maxSize := by
  induction rs generalizing s with
  | nil => simp [ContextPool.releaseAll]
  | cons r rest ih =>
      have hr : (s.heap.getD r {}).inUse = true := hin r (by simp)
      have hlt : s.pool.length < s.maxSize := by
        simp only [List.length_cons] at hroom
        omega
      have hrel := release_push s r hr hlt
      have hstep : ContextPool.releaseAll s (r :: rest) =
          ContextPool.releaseAll (ContextPool.release s r) rest := rfl
      rw [hstep, hrel]
      have hin2 : ∀ r2 ∈ rest,
          ((s.heap.set r { s.heap.getD r {} with inUse := false, state := [] }).getD
            r2 {}).inUse = true := by
        intro r2 hr2
        have hne : r ≠ r2 := by
          intro hcontra
          exact (List.nodup_cons.mp hnd).1 (hcontra ▸ hr2)
        rw [getD_set_ne _ _ _ _ _ hne]
        exact hin r2 (List.mem_cons_of_mem r hr2)
      have hroom2 : (r :: s.pool).length + rest.length ≤ s.maxSize := by
        simp only [List.length_cons] at hroom ⊢
        omega
      have ihres := ih
        { s with
          heap := s.heap.set r { s.heap.getD r {} with inUse := false, state := [] }
          pool := r :: s.pool }
        (List.nodup_cons.mp hnd).2 hin2 hroom2
      refine ⟨?_, ihres.2.1, ihres.2.2⟩
      rw [ihres.1]
      simp

lemma acquire_pop_fst (s : PoolState) (req res i : Nat) (rest : List Nat)
    (hp : s.pool = i :: rest) :
    (ContextPool.acquire s req res).1 = i := by
  simp [ContextPool.acquire, hp]

lemma acquire_pop_pool (s : PoolState) (req res i : Nat) (rest : List Nat)
    (hp : s.pool = i :: rest) :
    (ContextPool.acquire s req res).2.pool = rest := by
  simp [ContextPool.acquire, hp]

lemma acquire_pop_created (s : PoolState) (req res i : Nat) (rest : List Nat)
    (hp : s.pool = i :: rest) :
    (ContextPool.acquire s req res).2.created = s.created := by
  simp [ContextPool.acquire, hp]

lemma acquireN_spec (s : PoolState) (n req res : Nat)
    (h : n ≤ s.pool.length) :
    (ContextPool.acquireN s n req res).1 = s.pool.take n ∧
    (ContextPool.acquireN s n req res).2.created = s.created := by
  induction n generalizing s with
  | zero => simp [ContextPool.acquireN]
  | succ m ih =>
      cases hp : s.pool with
      | nil =>
          rw [hp] at h
          simp at h
      | cons i rest =>
          have hrest : m ≤ rest.length := by
            rw [hp] at h
            simpa using h
          have ihres := ih (ContextPool.acquire s req res).2
            (by rw [acquire_pop_pool s req res i rest hp]; exact hrest)
          constructor
          · show (ContextPool.acquire s req res).1 ::
                (ContextPool.acquireN (ContextPool.acquire s req res).2 m req res).1 =
                List.take (m + 1) (i :: rest)
            rw [acquire_pop_fst s req res i rest hp, List.take_succ_cons,
              ihres.1, acquire_pop_pool s req res i rest hp]
          · show (ContextPool.acquireN (ContextPool.acquire s req res).2 m req res).2.created =
                s.created
            rw [ihres.2, acquire_pop_created s req res i rest hp]

/-- C3 (amended): in a pool world where the `rs` are pairwise distinct in-use
contexts and the free-list has room for all of them
(`pool.length + rs.length ≤ maxSize`), releasing them sequentially and then
performing `rs.length` acquisitions hands back exactly those contexts, most
recently released first, with the `created` counter unchanged over the whole
window; moreover `acquire` bumps `created` (constructing a new context)
exactly when the free-list is empty. -/
theorem koaxC3_pool_reuse (s : PoolState) (rs : List Nat) (req res : Nat)
    (hnd : rs.Nodup)
    (hin : ∀ r ∈ rs, (s.heap.getD r {}).inUse = true)
    (hroom : s.pool.length + rs.length ≤ s.maxSize) :
    (ContextPool.acquireN (ContextPool.releaseAll s rs) rs.length req res).1 =
      rs.reverse ∧
    (ContextPool.acquireN (ContextPool.releaseAll s rs) rs.length req res).2.created =
      s.created ∧
    (∀ s2 : PoolState, ∀ req2 res2 : Nat,
      (ContextPool.acquire s2 req2 res2).2.created =
        if s2.pool = [] then s2.created + 1 else s2.created) := by
  have hrel := releaseAll_spec s rs hnd hin hroom
  have hlen : rs.length ≤ (ContextPool.releaseAll s rs).pool.length := by
    rw [hrel.1]
    simp
  have hacq := acquireN_spec (ContextPool.releaseAll s rs) rs.length req res hlen
  refine ⟨?_, ?_, ?_⟩
  · rw [hacq.1, hrel.1]
    rw [show rs.length = rs.reverse.length by simp]
    exact List.take_left rs.reverse s.pool
  · rw [hacq.2, hrel.2.1]
  · intro s2 req2 res2
    cases hp : s2.pool with
    | nil => simp [ContextPool.acquire, hp]
    | cons i rest => simp [ContextPool.acquire, hp]

/-- Witness scenario for C3: a fresh pool of capacity 3 after two
acquisitions — contexts 0 and 1 are in-use and the free-list is empty. -/
def c3Base : PoolState :=
  ((initPool 3 false).step (.acq 5 6)).step (.acq 7 8)

/-- Witness for C3: at `c3Base`, releasing contexts 0 then 1 and acquiring
twice hands back context 1 then context 0 with `created` unchanged at 2. -/
theorem koaxC3_pool_reuse_witness :
    ([0, 1].Nodup ∧
      (∀ r ∈ [0, 1], ((c3Base.heap.getD r {}).inUse = true)) ∧
      c3Base.pool.length + 2 ≤ c3Base.maxSize) ∧
    (ContextPool.acquireN (ContextPool.releaseAll c3Base [0, 1]) 2 9 9).1 =
      [1, 0] ∧
    (ContextPool.acquireN (ContextPool.releaseAll c3Base [0, 1]) 2 9 9).2.created =
      2 := by
  have h := koaxC3_pool_reuse c3Base [0, 1] 9 9 (by decide) (by decide) (by decide)
  exact ⟨⟨by decide, by decide, by decide⟩, h.1, h.2.1⟩

/-- Counterexample scenario for C3 as stated: capacity-1 pool whose free-list
already holds context 0 while context 1 is in-use. -/
def c3Full : PoolState :=
  ContextPool.release (((initPool 1 false).step (.acq 5 6)).step (.acq 7 8)) 0

/-- C3 counterexample: context 1 is in-use and `N = 1 ≤ maxSize`, but after
releasing it sequentially (it is dropped: the free-list is already at
capacity) the next `acquire` hands back context 0, not the just-released
context 1 — so the next `N` acquisitions do not return "exactly those
previously released" instances, as claimed for every `N ≤ maxSize`. -/
theorem koaxC3_counterexample :
    (c3Full.heap.getD 1 {}).inUse = true ∧
    (1 : Nat) ≤ c3Full.maxSize ∧
    (ContextPool.acquire (ContextPool.release c3Full 1) 9 9).1 = 0 ∧
    (ContextPool.acquire (ContextPool.release c3Full 1) 9 9).1 ≠ 1 := by
  decide

/-! ### Acquisition rebinding and request identifiers (C7) -/

lemma generateRequestId_injective : Function.Injective generateRequestId := by
  intro a b h
  have hd := congrArg String.data h
  simp only [generateRequestId] at hd
  have hl := congrArg List.length hd
  simp only [List.length_replicate] at hl
  omega

/-- C7 (amended): every acquisition — first construction or reuse from the
pool — rebinds the handed-out context to the new request/response pair with
a fresh empty state map; when the owning application's logger is enabled it
also receives the newly generated request identifier for this acquisition
(the generator is injective, so identifiers are unique per acquisition) and
the current timestamp, while with the logger disabled the identifier is the
empty string and the timestamp `0`.  The hypothesis `hv` says the free-list
only holds identities of constructed contexts, which holds in every
reachable pool state. -/
theorem koaxC7_acquire_rebind (s : PoolState) (req res : Nat) (i : Nat)
    (s2 : PoolState) (c : Ctx)
    (hv : ∀ j ∈ s.pool, j < s.heap.length)
    (ha : ContextPool.acquire s req res = (i, s2))
    (hc : s2.heap.getD i {} = c) :
    (c.reqH = req ∧ c.resH = res ∧ c.state = [] ∧ c.inUse = true) ∧
    (s.loggerEnabled = true →
      c.requestId = generateRequestId s.nextRid ∧
      c.startTime = s.clock ∧
      s2.nextRid = s.nextRid + 1) ∧
    (s.loggerEnabled = false → c.requestId = "" ∧ c.startTime = 0) ∧
    Function.Injective generateRequestId := by
  cases hp : s.pool with
  | nil =>
      rw [ContextPool.acquire, hp] at ha
      simp only at ha
      obtain ⟨hi, hs2⟩ := Prod.mk.injEq .. ▸ ha
      have hcc : c = { Ctx.reset {} req res s.loggerEnabled
          (generateRequestId s.nextRid) s.clock with inUse := true } := by
        rw [← hc, ← hs2, ← hi]
        exact getD_append_length s.heap _ {}
      subst hcc
      refine ⟨⟨rfl, rfl, rfl, rfl⟩, fun hle => ?_, fun hle => ?_, generateRequestId_injective⟩
      · refine ⟨by simp [Ctx.reset, hle], by simp [Ctx.reset, hle], ?_⟩
        rw [← hs2]
        simp [hle]
      · refine ⟨by simp [Ctx.reset, hle], by simp [Ctx.reset, hle]⟩
  | cons j rest =>
      rw [ContextPool.acquire, hp] at ha
      simp only at ha
      obtain ⟨hi, hs2⟩ := Prod.mk.injEq .. ▸ ha
      have hj : j < s.heap.length := hv j (by rw [hp]; simp)
      have hcc : c = { Ctx.reset (s.heap.getD j {}) req res s.loggerEnabled
          (generateRequestId s.nextRid) s.clock with inUse := true } := by
        rw [← hc, ← hs2, ← hi]
        exact getD_set_self s.heap j _ {} hj
      subst hcc
      refine ⟨⟨rfl, rfl, rfl, rfl⟩, fun hle => ?_, fun hle => ?_, generateRequestId_injective⟩
      · refine ⟨by simp [Ctx.reset, hle], by simp [Ctx.reset, hle], ?_⟩
        rw [← hs2]
        simp [hle]
      · refine ⟨by simp [Ctx.reset, hle], by simp [Ctx.reset, hle]⟩

/-- Witness for C7: acquiring from a fresh logger-enabled pool binds the
context to the request/response pair `(3, 4)`, gives it the identifier
generated from counter `0`, the current clock value `0`, an empty state map,
and bumps the identifier counter to `1`. -/
theorem koaxC7_acquire_rebind_witness :
    ((ContextPool.acquire (initPool 2 true) 3 4).2.heap.getD
        (ContextPool.acquire (initPool 2 true) 3 4).1 {}).reqH = 3 ∧
    ((ContextPool.acquire (initPool 2 true) 3 4).2.heap.getD
        (ContextPool.acquire (initPool 2 true) 3 4).1 {}).requestId =
      generateRequestId 0 ∧
    ((ContextPool.acquire (initPool 2 true) 3 4).2.heap.getD
        (ContextPool.acquire (initPool 2 true) 3 4).1 {}).state = [] ∧
    (ContextPool.acquire (initPool 2 true) 3 4).2.nextRid = 1 := by
  have h := koaxC7_acquire_rebind (initPool 2 true) 3 4
    (ContextPool.acquire (initPool 2 true) 3 4).1
    (ContextPool.acquire (initPool 2 true) 3 4).2
    ((ContextPool.acquire (initPool 2 true) 3 4).2.heap.getD
      (ContextPool.acquire (initPool 2 true) 3 4).1 {})
    (by decide) rfl rfl
  exact ⟨h.1.1, (h.2.1 rfl).1, h.1.2.2.1, (h.2.1 rfl).2.2⟩

/-- Counterexample scenario for C7: two acquisitions from a pool whose owning
application has logging disabled. -/
def c7NoLog : PoolState :=
  ((initPool 4 false).step (.acq 1 1)).step (.acq 2 2)

/-- C7 counterexample: with the application's logger disabled, two distinct
acquisitions (contexts 0 and 1) both carry the request identifier `""` and
start timestamp `0` — not a newly generated identifier unique to each
acquisition, and not a fresh timestamp, contrary to the claim which covers
every acquisition. -/
theorem koaxC7_counterexample :
    (c7NoLog.heap.getD 0 {}).requestId = "" ∧
    (c7NoLog.heap.getD 1 {}).requestId = "" ∧
    (c7NoLog.heap.getD 0 {}).startTime = 0 ∧
    (c7NoLog.heap.getD 1 {}).startTime = 0 := by
  decide

/-! ## Context.throw (src/context.ts) — C8 -/

/-- The error object built by `Context.throw`: a JS `Error` with `status` and
`expose` fields attached. -/
structure HttpError where
  status : Nat
  message : String
  expose : Bool
  deriving Repr, DecidableEq

/-- The error value `Context.throw(status, message)` constructs
(src/context.ts): `new Error(message || \x60HTTP Error ${status}\x60)` with
`err.status = status` and `err.expose = true`.  JS `||` falls back to the
default both when `message` is omitted (`undefined`) and when it is the empty
string (falsy). -/
def Context.throwErr (status : Nat) (message : Option String) : HttpError :=
  { status := status
    message :=
      match message with
      | some m => if m = "" then "HTTP Error " ++ toString status else m
      | none => "HTTP Error " ++ toString status
    expose := true }

/-- Wraps the error path: `Context.throw` never returns normally: modelled as a fallible
computation that always takes the error path. -/
def Context.throwExc (status : Nat) (message : Option String) :
    Except HttpError Unit :=
  Except.error (Context.throwErr status message)

/-- C8 (amended): for every status and optional message, `throw` never
returns normally: it always raises an error carrying exactly the given
status, `expose = true`, and the given message — except that the message
defaults to `"HTTP Error <status>"` when it is omitted or the empty string
(JS `||` defaulting). -/
theorem koaxC8_throw (status : Nat) (message : Option String) :
    Context.throwExc status message =
      Except.error
        { status := status
          message :=
            match message with
            | some m => if m = "" then "HTTP Error " ++ toString status else m
            | none => "HTTP Error " ++ toString status
          expose := true } := by
  rfl

/-- C8 counterexample: the claim says the raised error carries exactly the
given message whenever one is given, with the default only "when omitted";
but for the explicitly given empty-string message, `throw(404, "")` raises
`"HTTP Error 404"`, not `""`. -/
theorem koaxC8_counterexample :
    (Context.throwErr 404 (some "")).message = "HTTP Error 404" ∧
    (Context.throwErr 404 (some "")).message ≠ "" := by
  decide

/-! ## KoaXRequest.fresh / stale (src/request.ts) — C9 -/

/-- The request data `fresh` can see: the method, the request headers, and
the status peeked from `req.socket._httpMessage.statusCode` (`none` when the
socket has no outbound message attached). -/
structure ReqModel where
  method : String
  headers : List (String × String)
  peekedStatus : Option Nat
  deriving Repr, DecidableEq

/-- JS `x || d` on a number-or-undefined `x`: the default applies when `x`
is `undefined` or the falsy `0`. -/
def jsOrDefault (v : Option Nat) (d : Nat) : Nat :=
  match v with
  | none => d
  | some 0 => d
  | some (n + 1) => n + 1

/-- Embeds `KoaXRequest.fresh` (src/request.ts): `false` unless the method is GET
or HEAD; otherwise peek the outbound message's status through the request
socket (defaulting to 200) and report `true` exactly for 2xx or 304. -/
def KoaXRequest.fresh (r : ReqModel) : Bool :=
  if r.method ≠ "GET" ∧ r.method ≠ "HEAD" then false
  else
    if (200 ≤ jsOrDefault r.peekedStatus 200 ∧
        jsOrDefault r.peekedStatus 200 < 300) ∨
       jsOrDefault r.peekedStatus 200 = 304 then true
    else false

/-- Embeds `KoaXRequest.stale` (src/request.ts): the negation of `fresh`. -/
def KoaXRequest.stale (r : ReqModel) : Bool :=
  !(KoaXRequest.fresh r)

/-- C9: `fresh` is true exactly when the method is GET or HEAD and the
status peeked from the socket back-channel (taken as 200 when absent) lies
in 200..299 or equals 304; it never consults the request headers (in
particular not ETag / If-None-Match — replacing the headers with anything
leaves it unchanged); and `stale` is its boolean negation. -/
theorem koaxC9_fresh (r : ReqModel) :
    (KoaXRequest.fresh r = true ↔
      ((r.method = "GET" ∨ r.method = "HEAD") ∧
        ((200 ≤ jsOrDefault r.peekedStatus 200 ∧
          jsOrDefault r.peekedStatus 200 < 300) ∨
         jsOrDefault r.peekedStatus 200 = 304))) ∧
    (∀ hs : List (String × String),
      KoaXRequest.fresh { r with headers := hs } = KoaXRequest.fresh r) ∧
    KoaXRequest.stale r = !(KoaXRequest.fresh r) := by
  refine ⟨?_, fun hs => rfl, rfl⟩
  simp only [KoaXRequest.fresh]
  by_cases hm : r.method ≠ "GET" ∧ r.method ≠ "HEAD"
  · rw [if_pos hm]
    simp only [Bool.false_eq_true, false_iff]
    intro hcontra
    rcases hcontra.1 with h | h
    · exact hm.1 h
    · exact hm.2 h
  · rw [if_neg hm]
    push_neg at hm
    constructor
    · intro h
      refine ⟨?_, ?_⟩
      · by_cases hg : r.method = "GET"
        · exact Or.inl hg
        · exact Or.inr (hm hg)
      · by_contra hcontra
        rw [if_neg hcontra] at h
        exact Bool.false_ne_true h
    · intro h
      rw [if_pos h.2]

/-! ## Router.routes() (src/router.ts) — C10 -/

/-- One registered route (src/router.ts `Route`): the HTTP method, the
parameter names extracted from the pattern, the compiled anchored regex —
Node's regex engine is external, so the compiled `regex` is abstracted as a
matching function returning the captured groups (`match[1..]`) on success —
and the handler (an opaque identity). -/
structure Route where
  method : String
  paramNames : List String
  matcher : String → Option (List String)
  handlerId : Nat

/-- The value of `ctx.params`: `undefined`, or a parameter object.  A JS
property read of a missing capture yields `undefined`, hence the
`Option String` values. -/
inductive ParamsVal where
  | undef
  | obj (entries : List (String × Option String))
  deriving Repr, DecidableEq

/-- The matching loop of the middleware returned by `Router.routes()`
(src/router.ts): walk the route list in registration order, skipping routes
whose method or regex does not match; at the first match, set `ctx.params`
to a freshly built object of the route's parameter names mapped to the
captured segments — only when the route has parameter names — and run that
route's handler; if no route matches, fall through to `next`.  Returns the
final `ctx.params` and the handler that ran (`none` = fell through). -/
def routesLoop : List Route → String → String → ParamsVal × Option Nat
  | [], _, _ => (.undef, none)
  | r :: rest, method, path =>
      if r.method ≠ method then routesLoop rest method path
      else
        match r.matcher path with
        | none => routesLoop rest method path
        | some caps =>
            (if 0 < r.paramNames.length then
              ParamsVal.obj (r.paramNames.enum.map fun p => (p.2, caps.get? p.1))
            else .undef,
            some r.handlerId)

/-- One invocation of the middleware returned by `Router.routes()`
(src/router.ts): it first executes `ctx.params = undefined` — discarding
whatever `prevParams` the pooled context carried — and then runs the
matching loop. -/
def routesMw (routeList : List Route) (method path : String)
    (prevParams : ParamsVal) : ParamsVal × Option Nat :=
  routesLoop routeList method path

/-- The first route whose method matches and whose regex matches the path —
the specification-side description of which route `routes()` selects. -/
def firstMatch (routeList : List Route) (method path : String) : Option Route :=
  routeList.find? fun r => r.method == method && (r.matcher path).isSome

/-- C10: one invocation of the `Router.routes()` middleware never lets
previously set parameter values show through (the result is the same as if
the context had arrived with `ctx.params = undefined`), and afterwards
`ctx.params` is `undefined` when no route matches or when the first matching
route has no parameter names, and otherwise a freshly built object of
exactly the first matching route's parameter names mapped to the segments
its regex captured from the request path. -/
theorem koaxC10_router_params (routeList : List Route) (method path : String)
    (prevParams : ParamsVal) :
    (routesMw routeList method path prevParams =
      routesMw routeList method path .undef) ∧
    (firstMatch routeList method path = none →
      routesMw routeList method path prevParams = (.undef, none)) ∧
    (∀ r : Route, ∀ caps : List String,
      firstMatch routeList method path = some r →
      r.matcher path = some caps →
      routesMw routeList method path prevParams =
        (if 0 < r.paramNames.length then
          ParamsVal.obj (r.paramNames.enum.map fun p => (p.2, caps.get? p.1))
        else .undef,
        some r.handlerId)) := by
  refine ⟨rfl, ?_, ?_⟩
  · intro hnone
    simp only [routesMw]
    induction routeList with
    | nil => rfl
    | cons r rest ih =>
        simp only [firstMatch, List.find?_cons] at hnone
        rcases hfind : (r.method == method && (r.matcher path).isSome) with _ | _
        · rw [hfind] at hnone
          rw [Bool.and_eq_false_iff] at hfind
          simp only [routesLoop]
          rcases hfind with hf | hf
          · rw [if_pos (by simpa using hf)]
            exact ih hnone
          · by_cases hm : r.method ≠ method
            · rw [if_pos hm]
              exact ih hnone
            · rw [if_neg hm]
              have hf2 : r.matcher path = none := by
                cases hmp : r.matcher path with
                | none => rfl
                | some v => rw [hmp] at hf; simp at hf
              rw [hf2]
              exact ih hnone
        · rw [hfind] at hnone
          exact absurd hnone (by simp)
  · intro r caps hfirst hcaps
    simp only [routesMw]
    induction routeList with
    | nil => simp [firstMatch] at hfirst
    | cons r0 rest ih =>
        simp only [firstMatch, List.find?_cons] at hfirst
        rcases hfind : (r0.method == method && (r0.matcher path).isSome) with _ | _
        · rw [hfind] at hfirst
          rw [Bool.and_eq_false_iff] at hfind
          simp only [routesLoop]
          rcases hfind with hf | hf
          · rw [if_pos (by simpa using hf)]
            exact ih hfirst
          · by_cases hm : r0.method ≠ method
            · rw [if_pos hm]
              exact ih hfirst
            · rw [if_neg hm]
              have hf2 : r0.matcher path = none := by
                cases hmp : r0.matcher path with
                | none => rfl
                | some v => rw [hmp] at hf; simp at hf
              rw [hf2]
              exact ih hfirst
        · rw [hfind] at hfirst
          simp only [Option.some.injEq] at hfirst
          subst hfirst
          rw [Bool.and_eq_true] at hfind
          simp only [routesLoop]
          rw [if_neg (by simpa using hfind.1)]
          rw [hcaps]

/-- Witness routes for C10: a single `GET /users/:id` route whose compiled
regex matches `/users/<one segment>`. -/
def demoRoutes : List Route :=
  [{ method := "GET"
     paramNames := ["id"]
     matcher := fun p =>
       if p = "/users/42" then some ["42"]
       else none
     handlerId := 7 }]

/-- Witness for C10: a request `GET /users/42` arriving on a pooled context
that still carries stale params from a previous request ends with a fresh
params object mapping `id` to the captured `"42"`, and the route handler
runs. -/
theorem koaxC10_router_params_witness :
    routesMw demoRoutes "GET" "/users/42"
        (ParamsVal.obj [("id", some "old")]) =
      (ParamsVal.obj [("id", some "42")], some 7) := by
  have h := (koaxC10_router_params demoRoutes "GET" "/users/42"
      (ParamsVal.obj [("id", some "old")])).2.2
    { method := "GET"
      paramNames := ["id"]
      matcher := fun p => if p = "/users/42" then some ["42"] else none
      handlerId := 7 }
    ["42"] rfl (by simp)
  rw [h]
  rfl

/-! ## Middleware dispatcher — C1, C2

Modelled from the spec: the Dispatcher of section 4.2 lives in the
application/dispatcher source file, which is not among the given sources
(only its `Middleware` type, its benchmarks and its callers are).  The model
follows the spec's words: executing middleware `i` runs its body; when the
body invokes `next`, control passes to middleware `i + 1`, and once that
middleware's full execution completes control resumes after the `next` call;
past the end of the list `next` is a no-op resolving immediately; invoking
`next` a second time within a single middleware invocation fails with the
distinguishable `MultipleNextInvocationError`; failures propagate and no
further middleware runs. -/

/-- How a dispatch can fail: the dispatcher-misuse
`MultipleNextInvocationError`, or an error thrown by a middleware body. -/
inductive DispatchErr where
  | multipleNext
  | mwErr (msg : String)
  deriving Repr, DecidableEq

/-- The body of one middleware, as the dispatcher sees it: it can record a
log entry, invoke `next` and continue afterwards, throw, or finish. -/
inductive MwProg where
  | done
  | emit (s : String) (k : MwProg)
  | callNext (k : MwProg)
  | throwErr (msg : String)
  deriving Repr, DecidableEq

/-- Modelled from the spec: run one middleware body.  `rest` is the list of
middleware downstream of the one being run, `calledNext` records whether
this invocation has already used its `next`, and `log` accumulates recorded
entries.  Invoking `next` with `calledNext` already set fails with
`MultipleNextInvocationError` and runs nothing further; otherwise it runs
the downstream chain to completion (a no-op when `rest` is empty) and then
resumes the body after the `next` call; a downstream failure propagates and
the code after `next` does not run. -/
def runBody : List MwProg → MwProg → Bool → List String →
    List String × Option DispatchErr
  | _, .done, _, log => (log, none)
  | rest, .emit s k, calledNext, log => runBody rest k calledNext (log ++ [s])
  | rest, .callNext k, calledNext, log =>
      if calledNext then (log, some .multipleNext)
      else
        match rest with
        | [] => runBody [] k true log
        | m :: ms =>
            match runBody ms m false log with
            | (log2, some e) => (log2, some e)
            | (log2, none) => runBody (m :: ms) k true log2
  | _, .throwErr msg, _, log => (log, some (.mwErr msg))
termination_by rest body _ _ => (rest.length, sizeOf body)

/-- Modelled from the spec: the composed execution over a middleware list
snapshot — run the first middleware with the rest of the chain downstream;
an empty chain completes immediately. -/
def dispatch (chain : List MwProg) : List String × Option DispatchErr :=
  match chain with
  | [] => ([], none)
  | m :: ms => runBody ms m false []

/-- Run the downstream chain: what `next` does at a given chain position. -/
def runChain : List MwProg → List String → List String × Option DispatchErr
  | [], log => (log, none)
  | m :: ms, log => runBody ms m false log

/-- The log entry the `i`-th tracing middleware records before `next`. -/
def enterMsg (i : Nat) : String := "enter " ++ toString i

/-- The log entry the `i`-th tracing middleware records after `next`. -/
def exitMsg (i : Nat) : String := "exit " ++ toString i

/-- The tracing middleware of the spec's onion-order property: record
`enter i`, call `next`, record `exit i`. -/
def tracer (i : Nat) : MwProg :=
  .emit (enterMsg i) (.callNext (.emit (exitMsg i) .done))

lemma runBody_done (rest : List MwProg) (cn : Bool) (log : List String) :
    runBody rest .done cn log = (log, none) := by
  rw [runBody]

lemma runBody_emit (rest : List MwProg) (s : String) (k : MwProg) (cn : Bool)
    (log : List String) :
    runBody rest (.emit s k) cn log = runBody rest k cn (log ++ [s]) := by
  rw [runBody]

lemma runBody_throw (rest : List MwProg) (msg : String) (cn : Bool)
    (log : List String) :
    runBody rest (.throwErr msg) cn log = (log, some (.mwErr msg)) := by
  rw [runBody]

lemma runBody_next_twice (rest : List MwProg) (k : MwProg) (log : List String) :
    runBody rest (.callNext k) true log = (log, some .multipleNext) := by
  conv_lhs => rw [runBody.eq_def]
  simp

lemma runBody_next_nil (k : MwProg) (log : List String) :
    runBody [] (.callNext k) false log = runBody [] k true log := by
  conv_lhs => rw [runBody.eq_def]
  simp

lemma runBody_next_cons (m : MwProg) (ms : List MwProg) (k : MwProg)
    (log : List String) :
    runBody (m :: ms) (.callNext k) false log =
      match runBody ms m false log with
      | (log2, some e) => (log2, some e)
      | (log2, none) => runBody (m :: ms) k true log2 := by
  conv_lhs => rw [runBody.eq_def]
  simp

lemma runBody_tracer_next (ids : List Nat) (x : String) (log : List String) :
    runBody (ids.map tracer) (.callNext (.emit x .done)) false log =
      (log ++ ids.map enterMsg ++ ids.reverse.map exitMsg ++ [x], none) := by
  induction ids generalizing x log with
  | nil =>
      show runBody [] (.callNext (.emit x .done)) false log = _
      rw [runBody_next_nil, runBody_emit, runBody_done]
      simp
  | cons i rest ih =>
      show runBody (tracer i :: rest.map tracer) (.callNext (.emit x .done))
          false log = _
      rw [runBody_next_cons]
      have hinner : runBody (rest.map tracer) (tracer i) false log =
          (log ++ [enterMsg i] ++ rest.map enterMsg ++
            rest.reverse.map exitMsg ++ [exitMsg i], none) := by
        rw [tracer, runBody_emit, ih]
      rw [hinner]
      simp only []
      rw [runBody_emit, runBody_done]
      simp

lemma runChain_tracers (ids : List Nat) (log : List String) :
    runChain (ids.map tracer) log =
      (log ++ ids.map enterMsg ++ ids.reverse.map exitMsg, none) := by
  cases ids with
  | nil => simp [runChain]
  | cons i rest =>
      show runBody (rest.map tracer) (tracer i) false log = _
      rw [tracer, runBody_emit, runBody_tracer_next]
      simp

lemma dispatch_eq_runChain (chain : List MwProg) :
    dispatch chain = runChain chain [] := by
  cases chain <;> rfl

/-- C1: onion order.  For every list of tracing middleware — each recording
`enter i`, invoking `next`, then recording `exit i` — the composed dispatch
records all enters in registration order followed by all exits in reverse
order, completing without error (so `next` in the last middleware is a no-op
resolving immediately); in particular the 3-middleware chain yields exactly
`enter 0, enter 1, enter 2, exit 2, exit 1, exit 0`; and a middleware that
does not invoke `next` short-circuits: nothing downstream of it runs. -/
theorem koaxC1_onion_order :
    (∀ ids : List Nat,
      dispatch (ids.map tracer) =
        (ids.map enterMsg ++ ids.reverse.map exitMsg, none)) ∧
    dispatch [tracer 0, tracer 1, tracer 2] =
      (["enter 0", "enter 1", "enter 2", "exit 2", "exit 1", "exit 0"],
        none) ∧
    dispatch [.emit (enterMsg 0) (.emit (exitMsg 0) .done), tracer 1] =
      ([enterMsg 0, exitMsg 0], none) := by
  have hgen : ∀ ids : List Nat,
      dispatch (ids.map tracer) =
        (ids.map enterMsg ++ ids.reverse.map exitMsg, none) := by
    intro ids
    rw [dispatch_eq_runChain, runChain_tracers]
    simp
  refine ⟨hgen, ?_, ?_⟩
  · have h := hgen [0, 1, 2]
    rw [show ([0, 1, 2].map tracer) = [tracer 0, tracer 1, tracer 2] from rfl]
      at h
    rw [h]
    decide
  · show runBody [tracer 1] (.emit (enterMsg 0) (.emit (exitMsg 0) .done))
        false [] = _
    rw [runBody_emit, runBody_emit, runBody_done]
    simp

/-- A middleware that invokes `next` twice in one invocation: it records
`enter dup`, calls `next`, records `between`, calls `next` again, and would
record `unreached` afterwards. -/
def doubleNextMw : MwProg :=
  .emit "enter dup"
    (.callNext (.emit "between" (.callNext (.emit "unreached" .done))))

/-- C2: a middleware invoking `next` a second time within one invocation
makes the dispatch fail with the distinguishable
`MultipleNextInvocationError`, and no downstream middleware runs a second
time: for every downstream chain of tracers, the log shows each downstream
middleware's enter/exit exactly once (first `next`), then `between`, and
nothing after the failing second `next` — in particular for two downstream
tracers; and the error is distinct from any ordinary middleware error. -/
theorem koaxC2_multiple_next :
    (∀ ids : List Nat,
      dispatch (doubleNextMw :: ids.map tracer) =
        ("enter dup" ::
          (ids.map enterMsg ++ ids.reverse.map exitMsg ++ ["between"]),
          some .multipleNext)) ∧
    dispatch [doubleNextMw, tracer 0, tracer 1] =
      (["enter dup", "enter 0", "enter 1", "exit 1", "exit 0", "between"],
        some .multipleNext) ∧
    (∀ msg : String, DispatchErr.multipleNext ≠ DispatchErr.mwErr msg) := by
  have hgen : ∀ ids : List Nat,
      dispatch (doubleNextMw :: ids.map tracer) =
        ("enter dup" ::
          (ids.map enterMsg ++ ids.reverse.map exitMsg ++ ["between"]),
          some .multipleNext) := by
    intro ids
    show runBody (ids.map tracer)
        (.emit "enter dup"
          (.callNext (.emit "between" (.callNext (.emit "unreached" .done)))))
        false [] = _
    rw [runBody_emit]
    cases ids with
    | nil =>
        show runBody []
            (.callNext (.emit "between" (.callNext (.emit "unreached" .done))))
            false ["enter dup"] = _
        rw [runBody_next_nil, runBody_emit, runBody_next_twice]
        simp
    | cons i rest =>
        show runBody (tracer i :: rest.map tracer)
            (.callNext (.emit "between" (.callNext (.emit "unreached" .done))))
            false ([] ++ ["enter dup"]) = _
        rw [runBody_next_cons]
        have hinner : runBody (rest.map tracer) (tracer i) false
            ([] ++ ["enter dup"]) =
            (([] ++ ["enter dup"]) ++ [enterMsg i] ++ rest.map enterMsg ++
              rest.reverse.map exitMsg ++ [exitMsg i], none) := by
          rw [tracer, runBody_emit, runBody_tracer_next]
        rw [hinner]
        simp only []
        rw [runBody_emit, runBody_next_twice]
        simp
  refine ⟨hgen, ?_, ?_⟩
  · have h := hgen [0, 1]
    rw [show ([0, 1].map tracer) = [tracer 0, tracer 1] from rfl] at h
    rw [h]
    decide
  · intro msg hcontra
    exact DispatchErr.noConfusion hcontra

end KoaX
